import Mathlib

/-!
Verification of the react-native-p2p-secure core against its specification.

The TypeScript source is shallowly embedded: each relevant method is
translated into an executable Lean function over explicit state, and the
claims of the specification are settled as theorems about these functions.

External collaborators (the `secure-remote-password` library, node-forge
crypto, sockets and timers) are abstracted as oracle parameters; everything
the repository's own code computes is modelled directly.
-/

set_option autoImplicit false

/-! ## Associative-map helpers

JavaScript `Map` objects and plain objects used as dictionaries are modelled
as association lists.  `insertA` mirrors `Map.set` / property assignment:
an existing key keeps its position and is overwritten, a new key is appended.
-/

section AListHelpers

variable {K V : Type} [DecidableEq K]

def lookupA : List (K × V) → K → Option V
  | [], _ => none
  | (k, v) :: t, k' => if k = k' then some v else lookupA t k'

def hasA (l : List (K × V)) (k : K) : Bool :=
  (lookupA l k).isSome

def insertA : List (K × V) → K → V → List (K × V)
  | [], k, v => [(k, v)]
  | (k', v') :: t, k, v => if k' = k then (k, v) :: t else (k', v') :: insertA t k v

def keysA (l : List (K × V)) : List K :=
  l.map Prod.fst

end AListHelpers

/-! ## Decimal rendering

Models JavaScript `Number.prototype.toString()` for non-negative integers
(`natDecChars`) and `String.prototype.padStart` (`padStart`).
-/

def natDecCharsGo : Nat → Nat → List Char → List Char
  | 0, _, acc => acc
  | fuel + 1, n, acc =>
    if n < 10 then Nat.digitChar n :: acc
    else natDecCharsGo fuel (n / 10) (Nat.digitChar (n % 10) :: acc)

def natDecChars (n : Nat) : List Char :=
  natDecCharsGo (n + 1) n []

def padStart (c : Char) (len : Nat) (l : List Char) : List Char :=
  List.replicate (len - l.length) c ++ l

/-- `CoordinatorServer`'s constructor:
`parseInt(bytesToHex(3 random bytes), 16).toString().slice(0,6).padStart(6, '0')`.
The 3 random bytes are abstracted as the integer `n` they encode. -/
def sessionPasscode (n : Nat) : List Char :=
  padStart '0' 6 ((natDecChars n).take 6)

/-! ## `getTCPOpenPort` (src/Utils/protocolHelpers.ts)

The `while` loops probing upward from `startFrom` to 65535 and then downward
from `startFrom - 1` to 49152.  Port availability (`isPortAvailable`) is an
oracle predicate `avail`.
-/

def scanUp (avail : Nat → Bool) (i : Nat) : Option Nat :=
  if _h : i ≤ 65535 then
    if avail i then some i else scanUp avail (i + 1)
  else none
termination_by 65536 - i
decreasing_by omega

def scanDown (avail : Nat → Bool) (i : Nat) : Option Nat :=
  if _h : 49152 ≤ i then
    if avail i then some i else scanDown avail (i - 1)
  else none
termination_by i
decreasing_by omega

def getTCPOpenPort (avail : Nat → Bool) (startFrom : Nat) : Except String Nat :=
  match scanUp avail startFrom with
  | some p => .ok p
  | none =>
    match scanDown avail (startFrom - 1) with
    | some p => .ok p
    | none => .error "Could not secure a port."

/-! ## Coordinator server (src/Coordinator/CoordinatorServer.ts with its SRPServer)

State of `CoordinatorServer` together with the `SRPServer` user database.
The external `secure-remote-password` library is abstracted by oracles:
`deriveSession u proof` is `srp.deriveSession` for user `u` (`some
(serverProof, sessionKey)` on success, `none` when it throws), and
`serverEphermalKey` stands for the public half generated by
`srp.generateEphemeral`.
-/

namespace CoordinatorServer

/-- One row of `SRPServer.userDB`; only the `serverSession` component
(`(proof, key)` once `deriveSession` succeeded, `null` before) is observable
by the coordinator. -/
structure SRPUser where
  serverSession : Option (String × String)
deriving DecidableEq

/-- `SRPServer.registerAndLogin`: (re)creates the user record with
`serverSession: null`. -/
def registerAndLogin (db : List (String × SRPUser)) (username : String) :
    List (String × SRPUser) :=
  insertA db username { serverSession := none }

/-- `SRPServer.getSessionKey`, flattening `string | undefined | false` to an
option. -/
def getSessionKey (db : List (String × SRPUser)) (username : String) : Option String :=
  (lookupA db username).bind (fun u => u.serverSession.map Prod.snd)

/-- One value of the `CoordinatorServer.clients` dictionary. -/
structure ClientRec where
  retryCount : Nat
  ip : String
  registered : Bool
deriving DecidableEq

/-- One element of `CoordinatorServer.authenticatedClients`
(an `SRPHandshakeEncryptedPayload`). -/
structure AuthClient where
  userName : String
  ip : String
  port : Nat
deriving DecidableEq

structure CState where
  clients : List (String × ClientRec)
  srpUsers : List (String × SRPUser)
  authenticatedClients : List AuthClient
deriving DecidableEq

def initialCState : CState :=
  { clients := [], srpUsers := [], authenticatedClients := [] }

/-- Incoming coordinator messages with the socket source address attached. -/
inductive CMsg
  | handshake1 (username salt clientEphemeralPublic srcIp : String)
  | handshake2 (username sessionProof : String) (nodePort : Nat) (srcIp : String)
deriving DecidableEq

/-- Responses prepared on the TLS connection.  `handshake1UsernameTaken u`
abbreviates the error response whose message quotes the username; the
successful round-2 response carries the AES-encrypted host endpoint, whose
bytes are not modelled (an encryption failure only changes the response
payload and status, never the state or the events). -/
inductive CResp
  | handshake1Success (serverEphermalKey : String)
  | handshake1UsernameTaken (username : String)
  | handshake2Success
  | handshake2Error (error : String)
deriving DecidableEq

inductive CEvent
  | connectionAttempt (username : String)
  | connectionAttemptFail (username : String)
  | connected (userName ip : String) (port : Nat) (serverSessionKey : Option String)
  | disconnected (userName : String)
deriving DecidableEq

def ipMismatchError : String :=
  "Username does not match initial IP Address. Please restart and try again."

def tooManyAttemptsError : String :=
  "Too many failed authentication attempts for this IP! Please restart and try again."

def unableToVerifyError : String :=
  "Unable to verify client. Please try joining again."

def somethingWentWrongError : String :=
  "Something went wrong. Please try joining again."

def maxSRPRetrys : Nat := 3

/-- `Object.values(this.clients).filter(c => c.ip === ip).reduce((acc, c) =>
acc + c.retryCount, 0)`. -/
def retrySumForIP (clients : List (String × ClientRec)) (ip : String) : Nat :=
  (((clients.map Prod.snd).filter (fun c => c.ip = ip)).map ClientRec.retryCount).sum

/-- `CoordinatorServer.handleClientMessage`.  Returns `none` exactly where the
source would throw (`self.clients[username]!.ip` with the username present in
the SRP database but absent from `clients`, unreachable from the initial
state). -/
def handleClientMessage (deriveSession : String → String → Option (String × String))
    (serverEphermalKey : String) (st : CState) :
    CMsg → Option (CState × CResp × List CEvent)
  | .handshake1 username _salt _clientEphemeralPublic srcIp =>
    match lookupA st.clients username with
    | some c =>
      if srcIp ≠ c.ip then
        some (st, .handshake1UsernameTaken username, [])
      else
        some ({ st with
                  clients := insertA st.clients username { c with retryCount := c.retryCount + 1 },
                  srpUsers := registerAndLogin st.srpUsers username },
              .handshake1Success serverEphermalKey, [.connectionAttempt username])
    | none =>
      some ({ st with
                clients := insertA st.clients username
                  { retryCount := 0, ip := srcIp, registered := false },
                srpUsers := registerAndLogin st.srpUsers username },
            .handshake1Success serverEphermalKey, [.connectionAttempt username])
  | .handshake2 username sessionProof nodePort srcIp =>
    match lookupA st.srpUsers username with
    | none =>
      some (st, .handshake2Error somethingWentWrongError, [.connectionAttemptFail username])
    | some _ =>
      match lookupA st.clients username with
      | none => none
      | some c =>
        if c.ip ≠ srcIp then
          some (st, .handshake2Error ipMismatchError, [.connectionAttemptFail username])
        else if maxSRPRetrys ≤ retrySumForIP st.clients srcIp then
          some (st, .handshake2Error tooManyAttemptsError, [.connectionAttemptFail username])
        else
          match deriveSession username sessionProof with
          | some s =>
            let srpUsers := insertA st.srpUsers username { serverSession := some s }
            some ({ clients := insertA st.clients username { c with registered := true },
                    srpUsers := srpUsers,
                    authenticatedClients := st.authenticatedClients ++
                      [{ userName := username, ip := srcIp, port := nodePort }] },
                  .handshake2Success,
                  [.connected username srcIp nodePort (getSessionKey srpUsers username)])
          | none =>
            some (st, .handshake2Error unableToVerifyError, [.connectionAttemptFail username])

/-- Processes a list of messages in order, collecting the responses. -/
def runMessages (deriveSession : String → String → Option (String × String))
    (serverEphermalKey : String) :
    CState → List CMsg → Option (CState × List CResp)
  | st, [] => some (st, [])
  | st, m :: ms =>
    match handleClientMessage deriveSession serverEphermalKey st m with
    | none => none
    | some (st', resp, _events) =>
      match runMessages deriveSession serverEphermalKey st' ms with
      | none => none
      | some (stf, rs) => some (stf, resp :: rs)

/-- `SRPServer.exportUsers`. -/
def srpExportUsers (db : List (String × SRPUser)) : List (String × Option String) :=
  db.map (fun p => (p.1, p.2.serverSession.map Prod.snd))

structure ExportedUser where
  userName : String
  port : Nat
  ip : String
  serverSessionKey : Option String
deriving DecidableEq

/-- `CoordinatorServer.exportUsers`. -/
def exportUsers (db : List (String × SRPUser)) (authenticatedClients : List AuthClient) :
    List ExportedUser :=
  authenticatedClients.map (fun client =>
    match (srpExportUsers db).find? (fun user => user.1 = client.userName) with
    | some user =>
      { userName := client.userName, port := client.port, ip := client.ip,
        serverSessionKey := user.2 }
    | none =>
      { userName := client.userName, port := client.port, ip := client.ip,
        serverSessionKey := none })

/-- The `connection-closed` handler installed on the TLS server by the
`CoordinatorServer` constructor. -/
def connectionClosed (authenticatedClients : List AuthClient) (address : String) :
    List AuthClient × List CEvent :=
  match authenticatedClients.find? (fun client => client.ip = address) with
  | some client =>
    (authenticatedClients.filter (fun c => c.ip ≠ address),
      [.disconnected client.userName])
  | none => (authenticatedClients, [])

end CoordinatorServer

/-! ## TLS dialer certificate verification (TLSClient.initTLS verify callback)

JavaScript strings are modelled as character lists.  `splitOnChar` is
`String.prototype.split` with a single-character separator; `certVerify` is
the depth-0 check
`sName !== sessionName || sPort !== self.socket.remotePort?.toString()`,
where `sName = cn.split(':')[0]` and `sPort = cn.split(':')[1]`
(`none` plays the role of `undefined` for a missing component 1).
-/

def splitOnChar (sep : Char) : List Char → List (List Char)
  | [] => [[]]
  | c :: rest =>
    match splitOnChar sep rest with
    | [] => [[]]
    | p :: ps => if c = sep then [] :: p :: ps else (c :: p) :: ps

/-- Inverse of `splitOnChar`: re-joins the pieces with the separator. -/
def joinParts (sep : Char) : List (List Char) → List Char
  | [] => []
  | [p] => p
  | p :: ps => p ++ sep :: joinParts sep ps

def certVerify (sessionName : List Char) (remotePort : Nat) (cn : List Char) : Bool :=
  let parts := splitOnChar ':' cn
  decide (parts[0]? = some sessionName) &&
    decide (parts[1]? = some (natDecChars remotePort))

/-! ## Mesh node (Node.ts, ClientNode.ts, ServerNode.ts)

The neighbor map is keyed by username.  `receiveKey` is an `Option` because
the client-side hello processing stores `find(...)?.receiveKey as string`,
which is `undefined` when the payload has no row matching self; on every
other path the key is present.
-/

namespace Node

structure NeighborEntry where
  ip : String
  serverPort : Nat
  sendKey : String
  receiveKey : Option String
deriving DecidableEq

structure NInfo where
  userName : String
  ip : String
  port : Nat
deriving DecidableEq

/-- `NodeInfo`: either an `SRPHandshakeResult` (`{info, key}`) or explicit
`{info, sendKey, receiveKey}`. -/
inductive NodeInfo
  | srpResult (info : NInfo) (key : String)
  | explicitKeys (info : NInfo) (sendKey : String) (receiveKey : Option String)
deriving DecidableEq

def NodeInfo.info : NodeInfo → NInfo
  | .srpResult i _ => i
  | .explicitKeys i _ _ => i

/-- `Node.addNegihbor` (name as in the source): skips a record describing
self, otherwise stores a neighbor entry keyed by username; for an SRP result
`sendKey = receiveKey = key`. -/
def addNegihbor (identifier : String) (tcpServerPort : Nat)
    (neighbors : List (String × NeighborEntry)) (nodeInfo : NodeInfo) :
    List (String × NeighborEntry) :=
  if nodeInfo.info.userName = identifier ∧ nodeInfo.info.port = tcpServerPort then
    neighbors
  else
    match nodeInfo with
    | .srpResult i key =>
      insertA neighbors i.userName
        { ip := i.ip, serverPort := i.port, sendKey := key, receiveKey := some key }
    | .explicitKeys i sendKey receiveKey =>
      insertA neighbors i.userName
        { ip := i.ip, serverPort := i.port, sendKey := sendKey, receiveKey := receiveKey }

/-- One row of the decrypted hello payload
(`ServerStartMessageEncryptedPayload.nodes`). -/
structure PayloadNode where
  username : String
  ip : String
  port : Nat
  sendKey : String
  receiveKey : String
deriving DecidableEq

/-- One iteration of `payload.nodes.forEach` in
`ClientNode.handleClientMessage`: a username already in the map is skipped,
otherwise the neighbor is added with the row ip/port/sendKey and the fixed
`receiveKey` computed before the loop. -/
def helloStep (identifier : String) (tcpServerPort : Nat) (receiveKey : Option String)
    (nbrs : List (String × NeighborEntry)) (node : PayloadNode) :
    List (String × NeighborEntry) :=
  if hasA nbrs node.username then nbrs
  else
    addNegihbor identifier tcpServerPort nbrs
      (.explicitKeys { userName := node.username, ip := node.ip, port := node.port }
        node.sendKey receiveKey)

/-- The roster-install step of `ClientNode.handleClientMessage` on a `hello`
message, after decryption: `receiveKey` is taken from the payload row whose
username and port match self, then every row is folded through `helloStep`. -/
def processHello (identifier : String) (tcpServerPort : Nat)
    (neighbors : List (String × NeighborEntry)) (nodes : List PayloadNode) :
    List (String × NeighborEntry) :=
  let receiveKey := (nodes.find? (fun node =>
    node.username = identifier ∧ node.port = tcpServerPort)).map PayloadNode.receiveKey
  nodes.foldl (helloStep identifier tcpServerPort receiveKey) neighbors

/-- An authenticated member as the host sees it after SRP: ip, node port and
the SRP-derived session key. -/
structure Member where
  username : String
  ip : String
  port : Nat
  key : String
deriving DecidableEq

def hostAddStep (hostId : String) (hostPort : Nat)
    (nbrs : List (String × NeighborEntry)) (mem : Member) :
    List (String × NeighborEntry) :=
  addNegihbor hostId hostPort nbrs
    (.srpResult { userName := mem.username, ip := mem.ip, port := mem.port } mem.key)

/-- The host node's neighbor map: every authenticated member is added through
`addNegihbor` with its SRP result, so `sendKey = receiveKey = srp key`. -/
def hostNeighbors (hostId : String) (hostPort : Nat) (members : List Member) :
    List (String × NeighborEntry) :=
  members.foldl (hostAddStep hostId hostPort) []

/-- `ServerNode._generateHelloMessage`: one payload row per neighbor.  On the
host side `receiveKey` is always present; `getD` only totalizes the option
introduced for the client-side cast. -/
def generateHelloPayload (neighbors : List (String × NeighborEntry)) : List PayloadNode :=
  neighbors.map (fun p =>
    { username := p.1, ip := p.2.ip, port := p.2.serverPort,
      sendKey := p.2.sendKey, receiveKey := p.2.receiveKey.getD "" })

/-- A client node `A`: constructed with the host as sole neighbor (keyed by
the SRP session key from the decrypted coordinator payload), then processing
the host hello built from `hostNeighbors`. -/
def clientNeighborsAfterHello (hostId hostIp : String) (hostPort : Nat)
    (members : List Member) (A : Member) : List (String × NeighborEntry) :=
  let init := addNegihbor A.username A.port []
    (.srpResult { userName := hostId, ip := hostIp, port := hostPort } A.key)
  processHello A.username A.port init
    (generateHelloPayload (hostNeighbors hostId hostPort members))

def sendKeyFor (neighbors : List (String × NeighborEntry)) (u : String) : Option String :=
  (lookupA neighbors u).map NeighborEntry.sendKey

def receiveKeyFor (neighbors : List (String × NeighborEntry)) (u : String) : Option String :=
  (lookupA neighbors u).bind NeighborEntry.receiveKey

/-! ### ServerNode ack-hello counting -/

structure AckState where
  ackedNeighbors : List String
  sessionStartedCount : Nat
deriving DecidableEq

/-- JavaScript `Set.prototype.add`. -/
def addToSet (s : List String) (x : String) : List String :=
  if x ∈ s then s else s ++ [x]

/-- `ServerNode.handleClientMessage` on an `ack-hello` message: an unknown
sender or a source ip differing from the recorded one is dropped; otherwise
the sender joins `ackedNeighbors` and, when the set size reaches
`neighbors.size`, `session-started` is emitted and the set cleared. -/
def handleAckHello (neighbors : List (String × NeighborEntry)) (st : AckState)
    (sender srcIp : String) : AckState :=
  match lookupA neighbors sender with
  | none => st
  | some neighbor =>
    if neighbor.ip ≠ srcIp then st
    else
      let acked := addToSet st.ackedNeighbors sender
      if acked.length = neighbors.length then
        { ackedNeighbors := [], sessionStartedCount := st.sessionStartedCount + 1 }
      else
        { st with ackedNeighbors := acked }

def runAckHellos (neighbors : List (String × NeighborEntry)) (st : AckState)
    (events : List (String × String)) : AckState :=
  events.foldl (fun st ev => handleAckHello neighbors st ev.1 ev.2) st

/-- Whether an `ack-hello` event passes the known-sender and pinned-ip
checks. -/
def ackAccepted (neighbors : List (String × NeighborEntry)) (ev : String × String) : Bool :=
  match lookupA neighbors ev.1 with
  | none => false
  | some neighbor => neighbor.ip == ev.2

/-! ### sendMessage / broadcastMessage -/

/-- `CryptoUtils.EncryptionResult`. -/
structure EncryptionResult where
  message : Option String
  status : String
  error : Option String
deriving DecidableEq

/-- The message handed to a neighbor's TLS socket by `sendMessage`. -/
structure SendEffect where
  target : String
  messageType : String
  encryptedMessage : String
  iv : String
  fromUser : String
deriving DecidableEq

inductive NodeEvent
  | errorEvent (error : String) (fn username messageType : String)
deriving DecidableEq

/-- `Node.sendMessage`, with `CryptoUtils.aesEncrypt` and the fresh 16-byte
IV as oracles.  Returns the (unchanged) neighbor map, the emitted events and
the messages handed to TLS sockets. -/
def sendMessage (encrypt : String → String → String → EncryptionResult) (iv : String)
    (identifier : String) (neighbors : List (String × NeighborEntry))
    (message username messageType : String) :
    List (String × NeighborEntry) × List NodeEvent × List SendEffect :=
  match lookupA neighbors username with
  | none => (neighbors, [], [])
  | some neighbor =>
    let encrypted := encrypt neighbor.sendKey iv message
    if encrypted.status ≠ "success" then
      (neighbors,
        [.errorEvent "Error encrypting payload" "sendMessage" username messageType], [])
    else
      (neighbors, [],
        [{ target := username, messageType := messageType,
           encryptedMessage := encrypted.message.getD "", iv := iv,
           fromUser := identifier }])

/-- `Node.broadcastMessage`: `sendMessage` over every key of the neighbor
map; collects all produced send effects. -/
def broadcastSends (encrypt : String → String → String → EncryptionResult) (iv : String)
    (identifier : String) (neighbors : List (String × NeighborEntry))
    (message : String) : List SendEffect :=
  ((keysA neighbors).map (fun username =>
    (sendMessage encrypt iv identifier neighbors message username "message").2.2)).flatten

end Node

/-! # Theorems -/

/-! ## Assoc-map lemmas -/

section AListLemmas

variable {K V : Type} [DecidableEq K]

theorem lookupA_insertA_self (l : List (K × V)) (k : K) (v : V) :
    lookupA (insertA l k v) k = some v := by
  induction l with
  | nil => simp [insertA, lookupA]
  | cons p t ih =>
    obtain ⟨k', v'⟩ := p
    by_cases h : k' = k
    · subst h
      simp [insertA, lookupA]
    · simp [insertA, h, lookupA, ih]

theorem lookupA_insertA_ne (l : List (K × V)) (k k' : K) (v : V) (h : k ≠ k') :
    lookupA (insertA l k v) k' = lookupA l k' := by
  induction l with
  | nil => simp [insertA, lookupA, h]
  | cons p t ih =>
    obtain ⟨k₀, v₀⟩ := p
    by_cases h₀ : k₀ = k
    · subst h₀
      simp [insertA, lookupA, h]
    · simp only [insertA, if_neg h₀]
      by_cases h₁ : k₀ = k'
      · subst h₁
        simp [lookupA]
      · simp [lookupA, h₁, ih]

theorem hasA_insertA (l : List (K × V)) (k k' : K) (v : V) :
    hasA (insertA l k v) k' = (hasA l k' || decide (k = k')) := by
  by_cases h : k = k'
  · subst h
    simp [hasA, lookupA_insertA_self]
  · simp [hasA, lookupA_insertA_ne l k k' v h, h]

theorem insertA_of_hasA_eq_false (l : List (K × V)) (k : K) (v : V)
    (h : hasA l k = false) : insertA l k v = l ++ [(k, v)] := by
  induction l with
  | nil => simp [insertA]
  | cons p t ih =>
    obtain ⟨k₀, v₀⟩ := p
    simp only [hasA, lookupA] at h
    by_cases h₀ : k₀ = k
    · simp [h₀] at h
    · simp only [insertA, if_neg h₀, List.cons_append, List.cons.injEq, true_and]
      exact ih (by simpa [hasA, h₀] using h)

theorem lookupA_append_right {l₁ l₂ : List (K × V)} {k : K}
    (h : hasA l₁ k = false) : lookupA (l₁ ++ l₂) k = lookupA l₂ k := by
  induction l₁ with
  | nil => simp
  | cons p t ih =>
    obtain ⟨k₀, v₀⟩ := p
    simp only [hasA, lookupA] at h
    by_cases h₀ : k₀ = k
    · simp [h₀] at h
    · simpa [lookupA, h₀] using ih (by simpa [hasA, h₀] using h)

theorem lookupA_eq_none_of_not_mem_keys {l : List (K × V)} {k : K}
    (h : k ∉ keysA l) : lookupA l k = none := by
  induction l with
  | nil => rfl
  | cons p t ih =>
    obtain ⟨k₀, v₀⟩ := p
    simp only [keysA, List.map_cons, List.mem_cons] at h
    push_neg at h
    have hne : k₀ ≠ k := fun hh => h.1 hh.symm
    simp only [lookupA, if_neg hne]
    exact ih (by simpa [keysA] using h.2)

theorem mem_keysA_of_lookupA_isSome {l : List (K × V)} {k : K}
    (h : (lookupA l k).isSome) : k ∈ keysA l := by
  by_contra hc
  rw [lookupA_eq_none_of_not_mem_keys hc] at h
  simp at h

end AListLemmas

/-! ## Decimal digit lemmas -/

theorem digitChar_isDigit {d : Nat} (h : d < 10) : (Nat.digitChar d).isDigit = true := by
  interval_cases d <;> decide

theorem natDecCharsGo_digits (fuel : Nat) :
    ∀ n acc, (∀ c ∈ acc, c.isDigit = true) →
      ∀ c ∈ natDecCharsGo fuel n acc, c.isDigit = true := by
  induction fuel with
  | zero => intro n acc hacc c hc; exact hacc c hc
  | succ fuel ih =>
    intro n acc hacc c hc
    by_cases h : n < 10
    · simp only [natDecCharsGo, if_pos h] at hc
      rcases List.mem_cons.mp hc with h' | h'
      · exact h' ▸ digitChar_isDigit h
      · exact hacc c h'
    · simp only [natDecCharsGo, if_neg h] at hc
      refine ih (n / 10) _ ?_ c hc
      intro c' hc'
      rcases List.mem_cons.mp hc' with h' | h'
      · exact h' ▸ digitChar_isDigit (Nat.mod_lt _ (by omega))
      · exact hacc c' h'

theorem natDecChars_digits (n : Nat) :
    ∀ c ∈ natDecChars n, c.isDigit = true :=
  natDecCharsGo_digits (n + 1) n [] (by simp)

/-- C7: the session passcode derived from any value of the 3 random bytes is a
string of exactly 6 characters, each a decimal digit. -/
theorem sessionPasscode_six_digits (n : Nat) (_h : n < 2 ^ 24) :
    (sessionPasscode n).length = 6 ∧ ∀ c ∈ sessionPasscode n, c.isDigit = true := by
  constructor
  · have hle : ((natDecChars n).take 6).length ≤ 6 := by
      simp
    simp only [sessionPasscode, padStart, List.length_append, List.length_replicate]
    omega
  · intro c hc
    simp only [sessionPasscode, padStart, List.mem_append] at hc
    rcases hc with hc | hc
    · have := List.eq_of_mem_replicate hc
      subst this
      decide
    · exact natDecChars_digits n c (List.mem_of_mem_take hc)

theorem sessionPasscode_six_digits_witness :
    42 < 2 ^ 24 ∧
      ((sessionPasscode 42).length = 6 ∧ ∀ c ∈ sessionPasscode 42, c.isDigit = true) :=
  ⟨by norm_num, sessionPasscode_six_digits 42 (by norm_num)⟩

/-! ## Port-probing lemmas -/

theorem scanUp_spec (avail : Nat → Bool) :
    ∀ n i, 65536 - i ≤ n →
      (∀ p, scanUp avail i = some p →
        avail p = true ∧ i ≤ p ∧ p ≤ 65535 ∧ ∀ q, i ≤ q → q < p → avail q = false) ∧
      (scanUp avail i = none → ∀ q, i ≤ q → q ≤ 65535 → avail q = false) := by
  intro n
  induction n with
  | zero =>
    intro i hi
    constructor
    · intro p hp
      rw [scanUp] at hp
      split at hp
      · omega
      · cases hp
    · intro _ q hq₁ hq₂
      omega
  | succ n ih =>
    intro i hi
    constructor
    · intro p hp
      rw [scanUp] at hp
      split at hp
      · rename_i h
        split at hp
        · rename_i havail
          cases hp
          exact ⟨havail, le_refl _, h, fun q hq₁ hq₂ => by omega⟩
        · rename_i havail
          rw [Bool.not_eq_true] at havail
          obtain ⟨h₁, h₂, h₃, h₄⟩ := (ih (i + 1) (by omega)).1 p hp
          refine ⟨h₁, by omega, h₃, fun q hq₁ hq₂ => ?_⟩
          rcases Nat.eq_or_lt_of_le hq₁ with rfl | hlt
          · exact havail
          · exact h₄ q (by omega) hq₂
      · cases hp
    · intro hnone q hq₁ hq₂
      rw [scanUp] at hnone
      split at hnone
      · split at hnone
        · cases hnone
        · rename_i havail
          rw [Bool.not_eq_true] at havail
          rcases Nat.eq_or_lt_of_le hq₁ with rfl | hlt
          · exact havail
          · exact (ih (i + 1) (by omega)).2 hnone q (by omega) hq₂
      · omega

theorem scanDown_spec (avail : Nat → Bool) :
    ∀ i,
      (∀ p, scanDown avail i = some p →
        avail p = true ∧ 49152 ≤ p ∧ p ≤ i ∧ ∀ q, p < q → q ≤ i → avail q = false) ∧
      (scanDown avail i = none → ∀ q, 49152 ≤ q → q ≤ i → avail q = false) := by
  intro i
  induction i using Nat.strong_induction_on with
  | _ i ih =>
    constructor
    · intro p hp
      rw [scanDown] at hp
      split at hp
      · rename_i h
        split at hp
        · rename_i havail
          cases hp
          exact ⟨havail, h, le_refl _, fun q hq₁ hq₂ => by omega⟩
        · rename_i havail
          rw [Bool.not_eq_true] at havail
          obtain ⟨h₁, h₂, h₃, h₄⟩ := (ih (i - 1) (by omega)).1 p hp
          refine ⟨h₁, h₂, by omega, fun q hq₁ hq₂ => ?_⟩
          rcases Nat.eq_or_lt_of_le hq₂ with rfl | hlt
          · exact havail
          · exact h₄ q hq₁ (by omega)
      · cases hp
    · intro hnone q hq₁ hq₂
      rw [scanDown] at hnone
      split at hnone
      · rename_i h
        split at hnone
        · cases hnone
        · rename_i havail
          rw [Bool.not_eq_true] at havail
          rcases Nat.eq_or_lt_of_le hq₂ with rfl | hlt
          · exact havail
          · exact (ih (i - 1) (by omega)).2 hnone q hq₁ (by omega)
      · omega

/-- C8: for every start port in [49152, 65535] and every availability
predicate, `getTCPOpenPort` returns the smallest available port in
[start, 65535]; if that range has none, the largest available port in
[49152, start-1]; and if both ranges are exhausted it rejects with exactly
"Could not secure a port.". -/
theorem getTCPOpenPort_spec (avail : Nat → Bool) (startFrom : Nat)
    (h₁ : 49152 ≤ startFrom) (h₂ : startFrom ≤ 65535) :
    (∀ p, getTCPOpenPort avail startFrom = .ok p →
      avail p = true ∧
        ((startFrom ≤ p ∧ p ≤ 65535 ∧ ∀ q, startFrom ≤ q → q < p → avail q = false) ∨
         ((∀ q, startFrom ≤ q → q ≤ 65535 → avail q = false) ∧
           49152 ≤ p ∧ p < startFrom ∧ ∀ q, p < q → q < startFrom → avail q = false))) ∧
    (getTCPOpenPort avail startFrom = .error "Could not secure a port." ↔
      ∀ q, 49152 ≤ q → q ≤ 65535 → avail q = false) ∧
    (∀ e, getTCPOpenPort avail startFrom = .error e → e = "Could not secure a port.") := by
  have hup := scanUp_spec avail 65536 startFrom (by omega)
  have hdown := scanDown_spec avail (startFrom - 1)
  refine ⟨fun p hp => ?_, ⟨fun he => ?_, fun hall => ?_⟩, fun e he => ?_⟩
  · unfold getTCPOpenPort at hp
    cases hu : scanUp avail startFrom with
    | some p' =>
      rw [hu] at hp
      simp only [Except.ok.injEq] at hp
      subst hp
      obtain ⟨ha, hb, hc, hd⟩ := hup.1 p' hu
      exact ⟨ha, Or.inl ⟨hb, hc, hd⟩⟩
    | none =>
      rw [hu] at hp
      cases hd : scanDown avail (startFrom - 1) with
      | some p' =>
        rw [hd] at hp
        simp only [Except.ok.injEq] at hp
        subst hp
        obtain ⟨ha, hb, hc, hdd⟩ := hdown.1 p' hd
        exact ⟨ha, Or.inr ⟨hup.2 hu, hb, by omega,
          fun q hq₁ hq₂ => hdd q hq₁ (by omega)⟩⟩
      | none =>
        rw [hd] at hp
        cases hp
  · unfold getTCPOpenPort at he
    cases hu : scanUp avail startFrom with
    | some p' => rw [hu] at he; cases he
    | none =>
      rw [hu] at he
      cases hd : scanDown avail (startFrom - 1) with
      | some p' => rw [hd] at he; cases he
      | none =>
        intro q hq₁ hq₂
        by_cases hqs : startFrom ≤ q
        · exact hup.2 hu q hqs hq₂
        · exact hdown.2 hd q hq₁ (by omega)
  · unfold getTCPOpenPort
    cases hu : scanUp avail startFrom with
    | some p' =>
      obtain ⟨ha, hb, hc, _⟩ := hup.1 p' hu
      rw [hall p' (by omega) hc] at ha
      cases ha
    | none =>
      cases hd : scanDown avail (startFrom - 1) with
      | some p' =>
        obtain ⟨ha, hb, hc, _⟩ := hdown.1 p' hd
        rw [hall p' hb (by omega)] at ha
        cases ha
      | none => rfl
  · unfold getTCPOpenPort at he
    cases hu : scanUp avail startFrom with
    | some p' => rw [hu] at he; cases he
    | none =>
      rw [hu] at he
      cases hd : scanDown avail (startFrom - 1) with
      | some p' => rw [hd] at he; cases he
      | none =>
        rw [hd] at he
        simp only [Except.error.injEq] at he
        exact he.symm

theorem getTCPOpenPort_spec_witness :
    49152 ≤ 49160 ∧ 49160 ≤ 65535 ∧
      (getTCPOpenPort (fun q => decide (q = 49153)) 49160 =
          .error "Could not secure a port." ↔
        ∀ q, 49152 ≤ q → q ≤ 65535 → (fun q => decide (q = 49153)) q = false) :=
  ⟨by omega, by omega,
    (getTCPOpenPort_spec (fun q => decide (q = 49153)) 49160 (by omega) (by omega)).2.1⟩

/-! ## Coordinator theorems -/

namespace CoordinatorServer

/-- C5: a round-2 message for a username registered at round 1, arriving from
a different source address than the pinned one, is answered with status error
and the exact IP-mismatch message, emits `connection-attempt-fail`, and
leaves the whole coordinator state (in particular `authenticatedClients` and
the SRP users table) unchanged. -/
theorem ipPinning_round2 (deriveSession : String → String → Option (String × String))
    (serverEphermalKey : String) (st : CState)
    (username sessionProof : String) (nodePort : Nat) (srcIp : String)
    (u : SRPUser) (c : ClientRec)
    (hu : lookupA st.srpUsers username = some u)
    (hc : lookupA st.clients username = some c)
    (hip : c.ip ≠ srcIp) :
    handleClientMessage deriveSession serverEphermalKey st
        (.handshake2 username sessionProof nodePort srcIp) =
      some (st, .handshake2Error ipMismatchError, [.connectionAttemptFail username]) := by
  simp only [handleClientMessage, hu, hc]
  rw [if_pos hip]

theorem ipPinning_round2_witness :
    lookupA ([("u", SRPUser.mk none)] : List (String × SRPUser)) "u" = some (SRPUser.mk none) ∧
    lookupA ([("u", ClientRec.mk 0 "ip1" false)] : List (String × ClientRec)) "u" =
      some (ClientRec.mk 0 "ip1" false) ∧
    (ClientRec.mk 0 "ip1" false).ip ≠ "ip2" ∧
    handleClientMessage (fun _ _ => none) "eph"
        { clients := [("u", ClientRec.mk 0 "ip1" false)],
          srpUsers := [("u", SRPUser.mk none)],
          authenticatedClients := [] }
        (.handshake2 "u" "proof" 5 "ip2") =
      some ({ clients := [("u", ClientRec.mk 0 "ip1" false)],
              srpUsers := [("u", SRPUser.mk none)],
              authenticatedClients := [] },
        .handshake2Error ipMismatchError, [.connectionAttemptFail "u"]) :=
  ⟨by decide, by decide, by decide,
    ipPinning_round2 (fun _ _ => none) "eph"
      { clients := [("u", ClientRec.mk 0 "ip1" false)],
        srpUsers := [("u", SRPUser.mk none)],
        authenticatedClients := [] }
      "u" "proof" 5 "ip2" (SRPUser.mk none) (ClientRec.mk 0 "ip1" false)
      (by decide) (by decide) (by decide)⟩

/-- C1 is false on the code: failed `srp-handshake_2` proofs do not increment
any counter (`retryCount` only grows on repeated `srp-handshake_1`
registrations), so after three bad round-2 proofs from one IP the fourth
attempt with a correct proof is answered with success, not with the lockout
error. -/
theorem retryLockout_counterexample :
    (runMessages (fun _ proof => if proof = "good" then some ("sp", "sk") else none) "eph"
        initialCState
        [.handshake1 "u" "salt" "ceph" "ip1",
         .handshake2 "u" "bad" 7 "ip1",
         .handshake2 "u" "bad" 7 "ip1",
         .handshake2 "u" "bad" 7 "ip1",
         .handshake2 "u" "good" 7 "ip1"]).map Prod.snd =
      some [.handshake1Success "eph",
        .handshake2Error unableToVerifyError,
        .handshake2Error unableToVerifyError,
        .handshake2Error unableToVerifyError,
        .handshake2Success] ∧
    CResp.handshake2Success ≠ .handshake2Error tooManyAttemptsError := by
  constructor
  · decide
  · decide

/-- C1 (amended): the lockout counter is the per-IP sum of `retryCount`,
which is incremented by repeated `srp-handshake_1` registrations of an
existing username from its pinned IP, not by failed round-2 proofs.  Once
that sum reaches 3, any further `srp-handshake_2` from that IP for a username
pinned to that IP is answered with status error and the exact lockout
message, regardless of the username and even if its session proof is
correct, and the state is unchanged. -/
theorem retryLockout_amended (deriveSession : String → String → Option (String × String))
    (serverEphermalKey : String) (st : CState)
    (username sessionProof : String) (nodePort : Nat) (srcIp : String)
    (u : SRPUser) (c : ClientRec)
    (hu : lookupA st.srpUsers username = some u)
    (hc : lookupA st.clients username = some c)
    (hip : c.ip = srcIp)
    (hretry : maxSRPRetrys ≤ retrySumForIP st.clients srcIp) :
    handleClientMessage deriveSession serverEphermalKey st
        (.handshake2 username sessionProof nodePort srcIp) =
      some (st, .handshake2Error tooManyAttemptsError, [.connectionAttemptFail username]) := by
  simp only [handleClientMessage, hu, hc]
  rw [if_neg (by simp [hip]), if_pos hretry]

theorem retryLockout_amended_witness :
    lookupA ([("u", SRPUser.mk none)] : List (String × SRPUser)) "u" = some (SRPUser.mk none) ∧
    lookupA ([("u", ClientRec.mk 3 "ip1" false)] : List (String × ClientRec)) "u" =
      some (ClientRec.mk 3 "ip1" false) ∧
    (ClientRec.mk 3 "ip1" false).ip = "ip1" ∧
    maxSRPRetrys ≤ retrySumForIP [("u", ClientRec.mk 3 "ip1" false)] "ip1" ∧
    handleClientMessage (fun _ _ => some ("sp", "sk")) "eph"
        { clients := [("u", ClientRec.mk 3 "ip1" false)],
          srpUsers := [("u", SRPUser.mk none)],
          authenticatedClients := [] }
        (.handshake2 "u" "good" 5 "ip1") =
      some ({ clients := [("u", ClientRec.mk 3 "ip1" false)],
              srpUsers := [("u", SRPUser.mk none)],
              authenticatedClients := [] },
        .handshake2Error tooManyAttemptsError, [.connectionAttemptFail "u"]) :=
  ⟨by decide, by decide, by decide, by decide,
    retryLockout_amended (fun _ _ => some ("sp", "sk")) "eph"
      { clients := [("u", ClientRec.mk 3 "ip1" false)],
        srpUsers := [("u", SRPUser.mk none)],
        authenticatedClients := [] }
      "u" "good" 5 "ip1" (SRPUser.mk none) (ClientRec.mk 3 "ip1" false)
      (by decide) (by decide) (by decide) (by decide)⟩

/-- Every row of `exportUsers` carries the ip of the authenticated client it
was built from. -/
theorem exportUsers_ip (db : List (String × SRPUser)) (clients : List AuthClient) :
    ∀ r ∈ exportUsers db clients, ∃ c ∈ clients, r.ip = c.ip ∧ r.userName = c.userName := by
  intro r hr
  simp only [exportUsers, List.mem_map] at hr
  obtain ⟨c, hc, hrc⟩ := hr
  refine ⟨c, hc, ?_⟩
  cases hfind : (srpExportUsers db).find? (fun user => user.1 = c.userName) with
  | some user => rw [hfind] at hrc; subst hrc; exact ⟨rfl, rfl⟩
  | none => rw [hfind] at hrc; subst hrc; exact ⟨rfl, rfl⟩

/-- C9: when the TLS server reports `connection-closed` for an address, every
authenticated-client entry recorded with that ip is removed, the remaining
entries are kept, a `disconnected` event carrying the userName of the
matching entry is emitted, and `exportUsers` run on the resulting list no
longer contains any member with that ip. -/
theorem connectionClosed_spec (clients : List AuthClient) (address : String)
    (db : List (String × SRPUser)) :
    (∀ c ∈ (connectionClosed clients address).1, c.ip ≠ address) ∧
    (∀ c ∈ clients, c.ip ≠ address → c ∈ (connectionClosed clients address).1) ∧
    (∀ client, clients.find? (fun c => c.ip = address) = some client →
      (connectionClosed clients address).2 = [.disconnected client.userName]) ∧
    (∀ r ∈ exportUsers db (connectionClosed clients address).1, r.ip ≠ address) := by
  have hmain :
      (∀ c ∈ (connectionClosed clients address).1, c.ip ≠ address) ∧
      (∀ c ∈ clients, c.ip ≠ address → c ∈ (connectionClosed clients address).1) := by
    unfold connectionClosed
    cases hfind : clients.find? (fun c => c.ip = address) with
    | some client =>
      constructor
      · intro c hc
        have := (List.mem_filter.mp hc).2
        simpa using this
      · intro c hc hcip
        exact List.mem_filter.mpr ⟨hc, by simpa using hcip⟩
    | none =>
      constructor
      · intro c hc
        have := List.find?_eq_none.mp hfind c hc
        simpa using this
      · intro c hc _
        exact hc
  refine ⟨hmain.1, hmain.2, ?_, ?_⟩
  · intro client hfind
    unfold connectionClosed
    rw [hfind]
  · intro r hr
    obtain ⟨c, hc, hrc, _⟩ := exportUsers_ip db _ r hr
    rw [hrc]
    exact hmain.1 c hc

theorem connectionClosed_spec_witness :
    AuthClient.mk "a" "ip9" 1 ∈ [AuthClient.mk "a" "ip9" 1] ∧
    (AuthClient.mk "a" "ip9" 1).ip ≠ "ip3" ∧
    AuthClient.mk "a" "ip9" 1 ∈ (connectionClosed [AuthClient.mk "a" "ip9" 1] "ip3").1 :=
  ⟨by decide, by decide,
    (connectionClosed_spec [AuthClient.mk "a" "ip9" 1] "ip3" []).2.1
      (AuthClient.mk "a" "ip9" 1) (by decide) (by decide)⟩

end CoordinatorServer

/-! ## Certificate-verification theorems -/

theorem splitOnChar_ne_nil (sep : Char) (l : List Char) : splitOnChar sep l ≠ [] := by
  induction l with
  | nil => simp [splitOnChar]
  | cons c rest ih =>
    simp only [splitOnChar]
    cases h : splitOnChar sep rest with
    | nil => exact absurd h ih
    | cons p ps =>
      simp only [h]
      split <;> simp

theorem splitOnChar_of_not_mem (sep : Char) (l : List Char) (h : sep ∉ l) :
    splitOnChar sep l = [l] := by
  induction l with
  | nil => rfl
  | cons c rest ih =>
    simp only [List.mem_cons] at h
    push_neg at h
    simp only [splitOnChar, ih h.2]
    rw [if_neg (fun hc => h.1 hc.symm)]

theorem splitOnChar_append (sep : Char) (a b : List Char) (ha : sep ∉ a) :
    splitOnChar sep (a ++ sep :: b) = a :: splitOnChar sep b := by
  induction a with
  | nil =>
    simp only [List.nil_append, splitOnChar]
    cases h : splitOnChar sep b with
    | nil => exact absurd h (splitOnChar_ne_nil sep b)
    | cons p ps => simp [h]
  | cons c a' ih =>
    simp only [List.mem_cons] at ha
    push_neg at ha
    have hred : splitOnChar sep (c :: a' ++ sep :: b) =
        match splitOnChar sep (a' ++ sep :: b) with
        | [] => [[]]
        | p :: ps => if c = sep then [] :: p :: ps else (c :: p) :: ps := rfl
    rw [hred, ih ha.2]
    exact if_neg (fun hc => ha.1 hc.symm)

theorem joinParts_splitOnChar (sep : Char) (l : List Char) :
    joinParts sep (splitOnChar sep l) = l := by
  induction l with
  | nil => rfl
  | cons c rest ih =>
    cases h : splitOnChar sep rest with
    | nil => exact absurd h (splitOnChar_ne_nil sep rest)
    | cons p ps =>
      rw [h] at ih
      simp only [splitOnChar, h]
      split
      · rename_i hc
        subst hc
        cases ps with
        | nil => simpa [joinParts] using ih
        | cons q qs => simpa [joinParts] using ih
      · cases ps with
        | nil => simpa [joinParts] using congrArg (c :: ·) ih
        | cons q qs =>
          simp only [joinParts, List.cons_append]
          simpa [joinParts] using congrArg (c :: ·) ih

theorem colon_not_mem_natDecChars (P : Nat) : (':' : Char) ∉ natDecChars P := by
  intro hmem
  exact absurd (natDecChars_digits P ':' hmem) (by decide)

/-- C6 is false on the code: verification only inspects the first two
':'-separated components of the CN, so a CN with extra components after a
matching name and port is accepted although it is not exactly "S:P". -/
theorem certVerify_counterexample :
    certVerify ['s'] 80 ['s', ':', '8', '0', ':', 'x'] = true ∧
    (['s', ':', '8', '0', ':', 'x'] : List Char) ≠ ['s'] ++ ':' :: natDecChars 80 := by
  constructor
  · decide
  · decide

/-- C6 (amended): for a session name without ':', depth-0 verification
succeeds iff the CN is exactly `S:P` or `S:P` followed by ':' and arbitrary
trailing text; extra ':'-separated components after a matching name and port
are accepted, every other CN fails the handshake. -/
theorem certVerify_iff (S : List Char) (P : Nat) (cn : List Char) (hS : (':' : Char) ∉ S) :
    certVerify S P cn = true ↔
      (cn = S ++ ':' :: natDecChars P ∨
        ∃ rest, cn = S ++ ':' :: (natDecChars P ++ ':' :: rest)) := by
  have hpd := colon_not_mem_natDecChars P
  constructor
  · intro h
    simp only [certVerify, Bool.and_eq_true, decide_eq_true_eq] at h
    obtain ⟨h0, h1⟩ := h
    cases hp : splitOnChar ':' cn with
    | nil => exact absurd hp (splitOnChar_ne_nil ':' cn)
    | cons p0 prest =>
      rw [hp] at h0 h1
      simp only [List.getElem?_cons_zero, Option.some.injEq] at h0
      cases prest with
      | nil => simp at h1
      | cons p1 ps =>
        simp only [List.getElem?_cons_succ, List.getElem?_cons_zero,
          Option.some.injEq] at h1
        subst h0
        subst h1
        have hjoin := joinParts_splitOnChar ':' cn
        rw [hp] at hjoin
        cases ps with
        | nil =>
          left
          rw [← hjoin]
          simp [joinParts]
        | cons q qs =>
          right
          refine ⟨joinParts ':' (q :: qs), ?_⟩
          rw [← hjoin]
          simp [joinParts]
  · intro h
    rcases h with h | ⟨rest, h⟩
    · subst h
      rw [certVerify]
      simp only [splitOnChar_append ':' S (natDecChars P) hS,
        splitOnChar_of_not_mem ':' (natDecChars P) hpd]
      simp
    · subst h
      rw [certVerify]
      simp only [splitOnChar_append ':' S (natDecChars P ++ ':' :: rest) hS,
        splitOnChar_append ':' (natDecChars P) rest hpd]
      simp

theorem certVerify_iff_witness :
    ((':' : Char) ∉ (['a'] : List Char)) ∧
      (certVerify ['a'] 7 ['a', ':', '7'] = true ↔
        ((['a', ':', '7'] : List Char) = ['a'] ++ ':' :: natDecChars 7 ∨
          ∃ rest, (['a', ':', '7'] : List Char) =
            ['a'] ++ ':' :: (natDecChars 7 ++ ':' :: rest))) :=
  ⟨by decide, certVerify_iff ['a'] 7 ['a', ':', '7'] (by decide)⟩

/-! ## Node theorems -/

namespace Node

/-- `sendMessage` emits only messages addressed to the username it was given. -/
theorem sendMessage_target (encrypt : String → String → String → EncryptionResult)
    (iv identifier : String) (neighbors : List (String × NeighborEntry))
    (message username messageType : String) :
    ∀ s ∈ (sendMessage encrypt iv identifier neighbors message username messageType).2.2,
      s.target = username := by
  intro s hs
  unfold sendMessage at hs
  cases h : lookupA neighbors username with
  | none => rw [h] at hs; simp at hs
  | some neighbor =>
    rw [h] at hs
    simp only at hs
    split at hs
    · simp at hs
    · simp only [List.mem_singleton] at hs
      subst hs
      rfl

/-- C10: `sendMessage` for a username absent from the neighbor map returns
with the map unchanged, no event (in particular no error event) and nothing
sent; and every message produced by `broadcastMessage` is addressed to a
username currently in the neighbor map. -/
theorem sendMessage_unknown_user_spec
    (encrypt : String → String → String → EncryptionResult) (iv identifier : String)
    (neighbors : List (String × NeighborEntry)) (message : String) :
    (∀ username messageType, lookupA neighbors username = none →
      sendMessage encrypt iv identifier neighbors message username messageType =
        (neighbors, [], [])) ∧
    (∀ s ∈ broadcastSends encrypt iv identifier neighbors message,
      s.target ∈ keysA neighbors) := by
  constructor
  · intro username messageType h
    unfold sendMessage
    rw [h]
  · intro s hs
    simp only [broadcastSends, List.mem_flatten, List.mem_map] at hs
    obtain ⟨l, ⟨username, hu, hl⟩, hsl⟩ := hs
    subst hl
    rw [sendMessage_target encrypt iv identifier neighbors message username "message" s hsl]
    exact hu

theorem sendMessage_unknown_user_spec_witness :
    lookupA ([("bob", NeighborEntry.mk "ip" 4 "k" (some "k"))] :
        List (String × NeighborEntry)) "eve" = none ∧
    sendMessage (fun _ _ _ => EncryptionResult.mk (some "c") "success" none) "iv" "me"
        [("bob", NeighborEntry.mk "ip" 4 "k" (some "k"))] "hello" "eve" "message" =
      ([("bob", NeighborEntry.mk "ip" 4 "k" (some "k"))], [], []) :=
  ⟨by decide,
    (sendMessage_unknown_user_spec (fun _ _ _ => EncryptionResult.mk (some "c") "success" none)
      "iv" "me" [("bob", NeighborEntry.mk "ip" 4 "k" (some "k"))] "hello").1
      "eve" "message" (by decide)⟩

/-- Folding hello rows whose usernames all differ from `u` does not change
the entry stored for `u`. -/
theorem helloStep_foldl_lookup_of_ne (identifier : String) (tcpServerPort : Nat)
    (receiveKey : Option String) :
    ∀ (nodes : List PayloadNode) (nbrs : List (String × NeighborEntry)) (u : String),
      (∀ node ∈ nodes, node.username ≠ u) →
      lookupA (nodes.foldl (helloStep identifier tcpServerPort receiveKey) nbrs) u =
        lookupA nbrs u := by
  intro nodes
  induction nodes with
  | nil => intro nbrs u _; rfl
  | cons nd rest ih =>
    intro nbrs u h
    simp only [List.foldl_cons]
    rw [ih _ u (fun n hn => h n (List.mem_cons_of_mem nd hn))]
    have hnd : nd.username ≠ u := h nd (List.mem_cons_self nd rest)
    unfold helloStep
    split
    · rfl
    · unfold addNegihbor
      split
      · rfl
      · exact lookupA_insertA_ne nbrs nd.username u _ hnd

/-- Processing hello rows with pairwise-distinct usernames installs, for each
row not describing self and not already present, exactly the entry with that
row's ip, port and sendKey and the fixed `receiveKey`. -/
theorem helloStep_foldl_install (identifier : String) (tcpServerPort : Nat)
    (receiveKey : Option String) :
    ∀ (nodes : List PayloadNode) (nbrs : List (String × NeighborEntry)) (e : PayloadNode),
      e ∈ nodes →
      (nodes.map PayloadNode.username).Nodup →
      hasA nbrs e.username = false →
      e.username ≠ identifier →
      lookupA (nodes.foldl (helloStep identifier tcpServerPort receiveKey) nbrs) e.username =
        some { ip := e.ip, serverPort := e.port, sendKey := e.sendKey,
               receiveKey := receiveKey } := by
  intro nodes
  induction nodes with
  | nil => intro nbrs e he; simp at he
  | cons nd rest ih =>
    intro nbrs e he hnodup hhas hne
    simp only [List.map_cons, List.nodup_cons] at hnodup
    rcases List.mem_cons.mp he with rfl | he'
    · simp only [List.foldl_cons]
      rw [helloStep_foldl_lookup_of_ne identifier tcpServerPort receiveKey rest _
        e.username ?_]
      · unfold helloStep
        rw [if_neg (by simp [hhas])]
        unfold addNegihbor
        rw [if_neg (fun hcon => hne hcon.1)]
        exact lookupA_insertA_self nbrs e.username _
      · intro node hnode hnu
        exact hnodup.1 (hnu ▸ List.mem_map_of_mem PayloadNode.username hnode)
    · simp only [List.foldl_cons]
      refine ih _ e he' hnodup.2 ?_ hne
      have hndne : nd.username ≠ e.username := by
        intro hh
        exact hnodup.1 (hh ▸ List.mem_map_of_mem PayloadNode.username he')
      unfold helloStep
      split
      · exact hhas
      · unfold addNegihbor
        split
        · exact hhas
        · rw [hasA_insertA]
          simp [hhas, hndne]

/-- C2: in the client's processing of a `hello` whose payload has a row
matching self, every payload row naming a fresh username other than self is
installed with `sendKey` from that row and `receiveKey` equal to the
receiveKey of the self row — not the receiveKey of the row itself. -/
theorem clientHello_installs_keys (identifier : String) (tcpServerPort : Nat)
    (neighbors : List (String × NeighborEntry)) (nodes : List PayloadNode)
    (selfRow e : PayloadNode)
    (hfind : nodes.find? (fun node =>
        node.username = identifier ∧ node.port = tcpServerPort) = some selfRow)
    (he : e ∈ nodes)
    (hne : e.username ≠ identifier)
    (hnew : hasA neighbors e.username = false)
    (hnodup : (nodes.map PayloadNode.username).Nodup) :
    lookupA (processHello identifier tcpServerPort neighbors nodes) e.username =
      some { ip := e.ip, serverPort := e.port, sendKey := e.sendKey,
             receiveKey := some selfRow.receiveKey } := by
  unfold processHello
  rw [hfind]
  exact helloStep_foldl_install identifier tcpServerPort _ nodes neighbors e
    he hnodup hnew hne

theorem clientHello_installs_keys_witness :
    ([PayloadNode.mk "me" "i" 1 "skM" "rkM", PayloadNode.mk "bob" "j" 2 "skB" "rkB"].find?
        (fun node => node.username = "me" ∧ node.port = 1) =
      some (PayloadNode.mk "me" "i" 1 "skM" "rkM")) ∧
    PayloadNode.mk "bob" "j" 2 "skB" "rkB" ∈
      [PayloadNode.mk "me" "i" 1 "skM" "rkM", PayloadNode.mk "bob" "j" 2 "skB" "rkB"] ∧
    ("bob" : String) ≠ "me" ∧
    hasA ([] : List (String × NeighborEntry)) "bob" = false ∧
    lookupA (processHello "me" 1 []
        [PayloadNode.mk "me" "i" 1 "skM" "rkM", PayloadNode.mk "bob" "j" 2 "skB" "rkB"])
        "bob" =
      some (NeighborEntry.mk "j" 2 "skB" (some "rkM")) :=
  ⟨by decide, by decide, by decide, by decide,
    clientHello_installs_keys "me" 1 []
      [PayloadNode.mk "me" "i" 1 "skM" "rkM", PayloadNode.mk "bob" "j" 2 "skB" "rkB"]
      (PayloadNode.mk "me" "i" 1 "skM" "rkM") (PayloadNode.mk "bob" "j" 2 "skB" "rkB")
      (by decide) (by decide) (by decide) (by decide) (by decide)⟩

end Node

/-! ## Key-symmetry theorems (C3) -/

theorem hasA_append {K V : Type} [DecidableEq K] (l₁ l₂ : List (K × V)) (k : K) :
    hasA (l₁ ++ l₂) k = (hasA l₁ k || hasA l₂ k) := by
  induction l₁ with
  | nil => simp [hasA, lookupA]
  | cons p t ih =>
    obtain ⟨k₀, v₀⟩ := p
    by_cases h : k₀ = k
    · simp [hasA, lookupA, h]
    · simpa [hasA, lookupA, h] using ih

namespace Node

theorem hostAddStep_foldl_eq (hostId : String) (hostPort : Nat) :
    ∀ (members : List Member) (nbrs : List (String × NeighborEntry)),
      (∀ mem ∈ members, mem.username ≠ hostId) →
      (∀ mem ∈ members, hasA nbrs mem.username = false) →
      (members.map Member.username).Nodup →
      members.foldl (hostAddStep hostId hostPort) nbrs =
        nbrs ++ members.map (fun mem => (mem.username,
          NeighborEntry.mk mem.ip mem.port mem.key (some mem.key))) := by
  intro members
  induction members with
  | nil => intro nbrs _ _ _; simp
  | cons mem rest ih =>
    intro nbrs hhost hfresh hnodup
    simp only [List.map_cons, List.nodup_cons] at hnodup
    simp only [List.foldl_cons]
    have hstep : hostAddStep hostId hostPort nbrs mem =
        nbrs ++ [(mem.username, NeighborEntry.mk mem.ip mem.port mem.key (some mem.key))] := by
      unfold hostAddStep addNegihbor
      rw [if_neg (fun hcon => hhost mem (List.mem_cons_self mem rest) hcon.1)]
      exact insertA_of_hasA_eq_false nbrs mem.username _
        (hfresh mem (List.mem_cons_self mem rest))
    rw [hstep, ih _ ?_ ?_ hnodup.2]
    · simp
    · intro m hm
      exact hhost m (List.mem_cons_of_mem mem hm)
    · intro m hm
      have h₁ := hfresh m (List.mem_cons_of_mem mem hm)
      have h₂ : mem.username ≠ m.username :=
        fun hh => hnodup.1 (hh ▸ List.mem_map_of_mem Member.username hm)
      have h₃ : hasA [(mem.username,
          NeighborEntry.mk mem.ip mem.port mem.key (some mem.key))] m.username = false := by
        simp [hasA, lookupA, h₂]
      rw [hasA_append, h₁, h₃]
      rfl

theorem hostNeighbors_eq (hostId : String) (hostPort : Nat) (members : List Member)
    (hhost : ∀ mem ∈ members, mem.username ≠ hostId)
    (hnodup : (members.map Member.username).Nodup) :
    hostNeighbors hostId hostPort members =
      members.map (fun mem => (mem.username,
        NeighborEntry.mk mem.ip mem.port mem.key (some mem.key))) := by
  unfold hostNeighbors
  rw [hostAddStep_foldl_eq hostId hostPort members [] hhost (fun _ _ => rfl) hnodup]
  simp

theorem generateHelloPayload_hostNeighbors (hostId : String) (hostPort : Nat)
    (members : List Member)
    (hhost : ∀ mem ∈ members, mem.username ≠ hostId)
    (hnodup : (members.map Member.username).Nodup) :
    generateHelloPayload (hostNeighbors hostId hostPort members) =
      members.map (fun mem =>
        PayloadNode.mk mem.username mem.ip mem.port mem.key mem.key) := by
  rw [hostNeighbors_eq hostId hostPort members hhost hnodup]
  unfold generateHelloPayload
  rw [List.map_map]
  rfl

theorem selfRow_find? (A : Member) :
    ∀ members : List Member, A ∈ members →
      (members.map Member.username).Nodup →
      ((members.map (fun mem =>
          PayloadNode.mk mem.username mem.ip mem.port mem.key mem.key)).find?
        (fun node => node.username = A.username ∧ node.port = A.port)) =
      some (PayloadNode.mk A.username A.ip A.port A.key A.key) := by
  intro members
  induction members with
  | nil => intro h; simp at h
  | cons mem rest ih =>
    intro hA hnodup
    simp only [List.map_cons, List.nodup_cons] at hnodup
    rcases List.mem_cons.mp hA with rfl | hA'
    · rw [List.map_cons, List.find?_cons_of_pos _ (by simp)]
    · have hne : mem.username ≠ A.username :=
        fun hh => hnodup.1 (hh ▸ List.mem_map_of_mem Member.username hA')
      rw [List.map_cons, List.find?_cons_of_neg _ (by simp [hne]), ih hA' hnodup.2]

theorem lookupA_members_map (A : Member) :
    ∀ members : List Member, A ∈ members →
      (members.map Member.username).Nodup →
      lookupA (members.map (fun mem => (mem.username,
          NeighborEntry.mk mem.ip mem.port mem.key (some mem.key)))) A.username =
        some (NeighborEntry.mk A.ip A.port A.key (some A.key)) := by
  intro members
  induction members with
  | nil => intro h; simp at h
  | cons mem rest ih =>
    intro hA hnodup
    simp only [List.map_cons, List.nodup_cons] at hnodup
    rcases List.mem_cons.mp hA with rfl | hA'
    · simp [lookupA]
    · have hne : mem.username ≠ A.username :=
        fun hh => hnodup.1 (hh ▸ List.mem_map_of_mem Member.username hA')
      simp only [List.map_cons, lookupA, if_neg hne]
      exact ih hA' hnodup.2

theorem hostNeighbors_lookup (hostId : String) (hostPort : Nat) (members : List Member)
    (A : Member)
    (hnodup : (members.map Member.username).Nodup)
    (hhost : hostId ∉ members.map Member.username)
    (hA : A ∈ members) :
    lookupA (hostNeighbors hostId hostPort members) A.username =
      some (NeighborEntry.mk A.ip A.port A.key (some A.key)) := by
  have hhost' : ∀ mem ∈ members, mem.username ≠ hostId :=
    fun mem hm hh => hhost (hh ▸ List.mem_map_of_mem Member.username hm)
  rw [hostNeighbors_eq hostId hostPort members hhost' hnodup]
  exact lookupA_members_map A members hA hnodup

theorem clientInit_eq (hostId hostIp : String) (hostPort : Nat) (A : Member)
    (hAhost : hostId ≠ A.username) :
    addNegihbor A.username A.port []
        (.srpResult (NInfo.mk hostId hostIp hostPort) A.key) =
      [(hostId, NeighborEntry.mk hostIp hostPort A.key (some A.key))] := by
  unfold addNegihbor
  rw [if_neg (fun hcon => hAhost hcon.1)]
  rfl

theorem clientNeighborsAfterHello_lookup_member (hostId hostIp : String) (hostPort : Nat)
    (members : List Member) (A B : Member)
    (hnodup : (members.map Member.username).Nodup)
    (hhost : hostId ∉ members.map Member.username)
    (hA : A ∈ members) (hB : B ∈ members) (hBA : B.username ≠ A.username) :
    lookupA (clientNeighborsAfterHello hostId hostIp hostPort members A) B.username =
      some (NeighborEntry.mk B.ip B.port B.key (some A.key)) := by
  have hhost' : ∀ mem ∈ members, mem.username ≠ hostId :=
    fun mem hm hh => hhost (hh ▸ List.mem_map_of_mem Member.username hm)
  have hAhost : hostId ≠ A.username :=
    fun hh => hhost (hh ▸ List.mem_map_of_mem Member.username hA)
  have hBhost : hostId ≠ B.username :=
    fun hh => hhost (hh ▸ List.mem_map_of_mem Member.username hB)
  unfold clientNeighborsAfterHello
  rw [generateHelloPayload_hostNeighbors hostId hostPort members hhost' hnodup,
    clientInit_eq hostId hostIp hostPort A hAhost]
  unfold processHello
  rw [selfRow_find? A members hA hnodup]
  have h := helloStep_foldl_install A.username A.port
      ((some (PayloadNode.mk A.username A.ip A.port A.key A.key)).map PayloadNode.receiveKey)
      (members.map (fun mem => PayloadNode.mk mem.username mem.ip mem.port mem.key mem.key))
      [(hostId, NeighborEntry.mk hostIp hostPort A.key (some A.key))]
      (PayloadNode.mk B.username B.ip B.port B.key B.key)
      (List.mem_map_of_mem _ hB)
      (by simpa [List.map_map, Function.comp] using hnodup)
      (by simp [hasA, lookupA, hBhost])
      hBA
  exact h

theorem clientNeighborsAfterHello_lookup_host (hostId hostIp : String) (hostPort : Nat)
    (members : List Member) (A : Member)
    (hnodup : (members.map Member.username).Nodup)
    (hhost : hostId ∉ members.map Member.username)
    (hA : A ∈ members) :
    lookupA (clientNeighborsAfterHello hostId hostIp hostPort members A) hostId =
      some (NeighborEntry.mk hostIp hostPort A.key (some A.key)) := by
  have hhost' : ∀ mem ∈ members, mem.username ≠ hostId :=
    fun mem hm hh => hhost (hh ▸ List.mem_map_of_mem Member.username hm)
  have hAhost : hostId ≠ A.username :=
    fun hh => hhost (hh ▸ List.mem_map_of_mem Member.username hA)
  unfold clientNeighborsAfterHello
  rw [generateHelloPayload_hostNeighbors hostId hostPort members hhost' hnodup,
    clientInit_eq hostId hostIp hostPort A hAhost]
  unfold processHello
  rw [helloStep_foldl_lookup_of_ne A.username A.port _ _ _ hostId ?_]
  · simp [lookupA]
  · intro node hnode
    obtain ⟨mem, hm, rfl⟩ := List.mem_map.mp hnode
    exact fun hh => hhost' mem hm hh

/-- C3: after the host builds the hello payload with
`sendKey = receiveKey = srp key` per peer and every client has processed it,
the stored keys are symmetric: for distinct members A, B, A's sendKey for B
equals B's receiveKey for A and vice versa, and the same holds between the
host and every member. -/
theorem keySymmetry (hostId hostIp : String) (hostPort : Nat) (members : List Member)
    (A B : Member)
    (hnodup : (members.map Member.username).Nodup)
    (hhost : hostId ∉ members.map Member.username)
    (hA : A ∈ members) (hB : B ∈ members) (hAB : A.username ≠ B.username) :
    (sendKeyFor (clientNeighborsAfterHello hostId hostIp hostPort members A) B.username =
        receiveKeyFor (clientNeighborsAfterHello hostId hostIp hostPort members B) A.username ∧
      receiveKeyFor (clientNeighborsAfterHello hostId hostIp hostPort members A) B.username =
        sendKeyFor (clientNeighborsAfterHello hostId hostIp hostPort members B) A.username) ∧
    (sendKeyFor (hostNeighbors hostId hostPort members) A.username =
        receiveKeyFor (clientNeighborsAfterHello hostId hostIp hostPort members A) hostId ∧
      receiveKeyFor (hostNeighbors hostId hostPort members) A.username =
        sendKeyFor (clientNeighborsAfterHello hostId hostIp hostPort members A) hostId) := by
  have hBA : B.username ≠ A.username := fun hh => hAB hh.symm
  have hmA := clientNeighborsAfterHello_lookup_member hostId hostIp hostPort members A B
    hnodup hhost hA hB hBA
  have hmB := clientNeighborsAfterHello_lookup_member hostId hostIp hostPort members B A
    hnodup hhost hB hA hAB
  have hhostA := hostNeighbors_lookup hostId hostPort members A hnodup hhost hA
  have hcA := clientNeighborsAfterHello_lookup_host hostId hostIp hostPort members A
    hnodup hhost hA
  simp [sendKeyFor, receiveKeyFor, hmA, hmB, hhostA, hcA]

theorem keySymmetry_witness :
    (([Member.mk "a" "ia" 1 "ka", Member.mk "b" "ib" 2 "kb"].map Member.username).Nodup) ∧
    ("h" ∉ [Member.mk "a" "ia" 1 "ka", Member.mk "b" "ib" 2 "kb"].map Member.username) ∧
    Member.mk "a" "ia" 1 "ka" ∈ [Member.mk "a" "ia" 1 "ka", Member.mk "b" "ib" 2 "kb"] ∧
    Member.mk "b" "ib" 2 "kb" ∈ [Member.mk "a" "ia" 1 "ka", Member.mk "b" "ib" 2 "kb"] ∧
    (Member.mk "a" "ia" 1 "ka").username ≠ (Member.mk "b" "ib" 2 "kb").username ∧
    ((sendKeyFor (clientNeighborsAfterHello "h" "ih" 9
          [Member.mk "a" "ia" 1 "ka", Member.mk "b" "ib" 2 "kb"] (Member.mk "a" "ia" 1 "ka"))
          (Member.mk "b" "ib" 2 "kb").username =
        receiveKeyFor (clientNeighborsAfterHello "h" "ih" 9
          [Member.mk "a" "ia" 1 "ka", Member.mk "b" "ib" 2 "kb"] (Member.mk "b" "ib" 2 "kb"))
          (Member.mk "a" "ia" 1 "ka").username ∧
      receiveKeyFor (clientNeighborsAfterHello "h" "ih" 9
          [Member.mk "a" "ia" 1 "ka", Member.mk "b" "ib" 2 "kb"] (Member.mk "a" "ia" 1 "ka"))
          (Member.mk "b" "ib" 2 "kb").username =
        sendKeyFor (clientNeighborsAfterHello "h" "ih" 9
          [Member.mk "a" "ia" 1 "ka", Member.mk "b" "ib" 2 "kb"] (Member.mk "b" "ib" 2 "kb"))
          (Member.mk "a" "ia" 1 "ka").username) ∧
     (sendKeyFor (hostNeighbors "h" 9 [Member.mk "a" "ia" 1 "ka", Member.mk "b" "ib" 2 "kb"])
          (Member.mk "a" "ia" 1 "ka").username =
        receiveKeyFor (clientNeighborsAfterHello "h" "ih" 9
          [Member.mk "a" "ia" 1 "ka", Member.mk "b" "ib" 2 "kb"] (Member.mk "a" "ia" 1 "ka"))
          "h" ∧
      receiveKeyFor (hostNeighbors "h" 9
          [Member.mk "a" "ia" 1 "ka", Member.mk "b" "ib" 2 "kb"])
          (Member.mk "a" "ia" 1 "ka").username =
        sendKeyFor (clientNeighborsAfterHello "h" "ih" 9
          [Member.mk "a" "ia" 1 "ka", Member.mk "b" "ib" 2 "kb"] (Member.mk "a" "ia" 1 "ka"))
          "h")) :=
  ⟨by decide, by decide, by decide, by decide, by decide,
    keySymmetry "h" "ih" 9 [Member.mk "a" "ia" 1 "ka", Member.mk "b" "ib" 2 "kb"]
      (Member.mk "a" "ia" 1 "ka") (Member.mk "b" "ib" 2 "kb")
      (by decide) (by decide) (by decide) (by decide) (by decide)⟩

end Node

/-! ## session-started counting theorems (C4) -/

namespace Node

/-- C4 is false on the code: `ackedNeighbors` is cleared when
`session-started` is emitted, so replaying the acks fires the event again.
With a single neighbor, two identical `ack-hello` deliveries from the same
sender emit `session-started` twice. -/
theorem sessionStarted_counterexample :
    (runAckHellos [("A", NeighborEntry.mk "ip" 1 "k" (some "k"))] (AckState.mk [] 0)
        [("A", "ip"), ("A", "ip")]).sessionStartedCount = 2 ∧ (2 : Nat) ≠ 1 := by
  constructor
  · decide
  · decide

theorem handleAckHello_not_accepted (nbrs : List (String × NeighborEntry)) (st : AckState)
    (ev : String × String) (h : ackAccepted nbrs ev = false) :
    handleAckHello nbrs st ev.1 ev.2 = st := by
  unfold ackAccepted at h
  unfold handleAckHello
  cases hl : lookupA nbrs ev.1 with
  | none => rfl
  | some nb =>
    rw [hl] at h
    simp only
    rw [if_pos (by simpa using h)]

theorem runAckHellos_filter (nbrs : List (String × NeighborEntry)) :
    ∀ (events : List (String × String)) (st : AckState),
      runAckHellos nbrs st events =
        runAckHellos nbrs st (events.filter (ackAccepted nbrs)) := by
  intro events
  induction events with
  | nil => intro st; rfl
  | cons ev rest ih =>
    intro st
    have hunfold : runAckHellos nbrs st (ev :: rest) =
        runAckHellos nbrs (handleAckHello nbrs st ev.1 ev.2) rest := rfl
    cases hacc : ackAccepted nbrs ev with
    | true =>
      rw [List.filter_cons_of_pos hacc, hunfold]
      have hunfold2 : runAckHellos nbrs st (ev :: rest.filter (ackAccepted nbrs)) =
          runAckHellos nbrs (handleAckHello nbrs st ev.1 ev.2)
            (rest.filter (ackAccepted nbrs)) := rfl
      rw [hunfold2]
      exact ih _
    | false =>
      rw [List.filter_cons_of_neg (by simp [hacc]), hunfold,
        handleAckHello_not_accepted nbrs st ev hacc]
      exact ih st

theorem runAccepted_count (nbrs : List (String × NeighborEntry)) :
    ∀ (A : List (String × String)) (st : AckState),
      (∀ ev ∈ A, ackAccepted nbrs ev = true) →
      (A.map Prod.fst).Nodup →
      (∀ u ∈ st.ackedNeighbors, u ∉ A.map Prod.fst) →
      st.ackedNeighbors.length < nbrs.length →
      st.ackedNeighbors.length + A.length ≤ nbrs.length →
      (runAckHellos nbrs st A).sessionStartedCount =
        st.sessionStartedCount +
          (if st.ackedNeighbors.length + A.length = nbrs.length then 1 else 0) := by
  intro A
  induction A with
  | nil =>
    intro st _ _ _ hlt _
    have h0 : runAckHellos nbrs st [] = st := rfl
    rw [h0, List.length_nil, if_neg (by omega)]
    omega
  | cons ev rest ih =>
    intro st hacc hnodup hdisj hlt htot
    simp only [List.map_cons, List.nodup_cons] at hnodup
    simp only [List.length_cons] at htot ⊢
    have hev := hacc ev (List.mem_cons_self ev rest)
    unfold ackAccepted at hev
    cases hl : lookupA nbrs ev.1 with
    | none =>
      rw [hl] at hev
      simp at hev
    | some nb =>
      rw [hl] at hev
      have hip : nb.ip = ev.2 := by simpa using hev
      have hnotin : ev.1 ∉ st.ackedNeighbors :=
        fun hmem => hdisj ev.1 hmem (by simp)
      have haddToSet : addToSet st.ackedNeighbors ev.1 = st.ackedNeighbors ++ [ev.1] := by
        unfold addToSet
        rw [if_neg hnotin]
      have hstep : handleAckHello nbrs st ev.1 ev.2 =
          (if st.ackedNeighbors.length + 1 = nbrs.length then
            AckState.mk [] (st.sessionStartedCount + 1)
          else AckState.mk (st.ackedNeighbors ++ [ev.1]) st.sessionStartedCount) := by
        unfold handleAckHello
        rw [hl]
        show (if nb.ip ≠ ev.2 then st
          else if (addToSet st.ackedNeighbors ev.1).length = nbrs.length then
            AckState.mk [] (st.sessionStartedCount + 1)
          else AckState.mk (addToSet st.ackedNeighbors ev.1) st.sessionStartedCount) = _
        rw [if_neg (by simp [hip]), haddToSet]
        simp only [List.length_append, List.length_singleton]
      have hunfold : runAckHellos nbrs st (ev :: rest) =
          runAckHellos nbrs (handleAckHello nbrs st ev.1 ev.2) rest := rfl
      rw [hunfold, hstep]
      by_cases hfull : st.ackedNeighbors.length + 1 = nbrs.length
      · rw [if_pos hfull]
        have hrest : rest = [] := List.length_eq_zero.mp (by omega)
        subst hrest
        have h0 : runAckHellos nbrs (AckState.mk [] (st.sessionStartedCount + 1)) [] =
            AckState.mk [] (st.sessionStartedCount + 1) := rfl
        rw [h0, if_pos (by simp only [List.length_nil]; omega)]
      · rw [if_neg hfull]
        have hih := ih (AckState.mk (st.ackedNeighbors ++ [ev.1]) st.sessionStartedCount)
          (fun e he => hacc e (List.mem_cons_of_mem ev he)) hnodup.2 ?_ ?_ ?_
        · rw [hih]
          have hcond : ((AckState.mk (st.ackedNeighbors ++ [ev.1])
                st.sessionStartedCount).ackedNeighbors.length + rest.length = nbrs.length) ↔
              (st.ackedNeighbors.length + (rest.length + 1) = nbrs.length) := by
            simp only [List.length_append, List.length_singleton]
            omega
          simp only [hcond]
        · intro u hu
          simp only [List.mem_append, List.mem_singleton] at hu
          rcases hu with hu | rfl
          · intro hmem
            exact hdisj u hu (by simp [hmem])
          · exact hnodup.1
        · simp only [List.length_append, List.length_singleton]
          omega
        · simp only [List.length_append, List.length_singleton]
          omega

/-- C4 (amended): provided every neighbor's `ack-hello` is delivered at most
once, the host emits `session-started` at most once, and exactly once iff
every neighbor contributes an accepted ack; because `ackedNeighbors` is
cleared upon emission, a full replay of all acks after emission fires the
event again. -/
theorem sessionStarted_amended (nbrs : List (String × NeighborEntry))
    (events : List (String × String))
    (hne : nbrs ≠ [])
    (hkeys : (keysA nbrs).Nodup)
    (hnodup : (events.map Prod.fst).Nodup) :
    (runAckHellos nbrs (AckState.mk [] 0) events).sessionStartedCount ≤ 1 ∧
    ((runAckHellos nbrs (AckState.mk [] 0) events).sessionStartedCount = 1 ↔
      ∀ u ∈ keysA nbrs, u ∈ (events.filter (ackAccepted nbrs)).map Prod.fst) := by
  have hAacc : ∀ ev ∈ events.filter (ackAccepted nbrs), ackAccepted nbrs ev = true :=
    fun ev he => (List.mem_filter.mp he).2
  have hAnodup : ((events.filter (ackAccepted nbrs)).map Prod.fst).Nodup :=
    List.Nodup.sublist ((List.filter_sublist events).map Prod.fst) hnodup
  have hsubset : ∀ u ∈ (events.filter (ackAccepted nbrs)).map Prod.fst, u ∈ keysA nbrs := by
    intro u hu
    obtain ⟨ev, hev, rfl⟩ := List.mem_map.mp hu
    have hacc := hAacc ev hev
    unfold ackAccepted at hacc
    cases hl : lookupA nbrs ev.1 with
    | none =>
      rw [hl] at hacc
      simp at hacc
    | some nb => exact mem_keysA_of_lookupA_isSome (by rw [hl]; rfl)
  have hsp : List.Subperm ((events.filter (ackAccepted nbrs)).map Prod.fst) (keysA nbrs) :=
    List.subperm_of_subset hAnodup hsubset
  have hlen : (events.filter (ackAccepted nbrs)).length ≤ nbrs.length := by
    have h := hsp.length_le
    simpa [keysA, List.length_map] using h
  have hrun := runAckHellos_filter nbrs events (AckState.mk [] 0)
  have hcount : (runAckHellos nbrs (AckState.mk [] 0)
      (events.filter (ackAccepted nbrs))).sessionStartedCount =
      (if (events.filter (ackAccepted nbrs)).length = nbrs.length then 1 else 0) := by
    have h := runAccepted_count nbrs (events.filter (ackAccepted nbrs))
      (AckState.mk [] 0) hAacc hAnodup (by simp)
      (List.length_pos.mpr hne) (by simpa using hlen)
    simpa using h
  rw [hrun, hcount]
  refine ⟨by split <;> omega, ?_, ?_⟩
  · intro h1
    by_cases hfull : (events.filter (ackAccepted nbrs)).length = nbrs.length
    · have hperm : ((events.filter (ackAccepted nbrs)).map Prod.fst).Perm (keysA nbrs) :=
        hsp.perm_of_length_le (by simpa [keysA, List.length_map] using hfull.ge)
      intro u hu
      exact hperm.mem_iff.mpr hu
    · rw [if_neg hfull] at h1
      exact absurd h1 (by decide)
  · intro hall
    have hsp2 : List.Subperm (keysA nbrs)
        ((events.filter (ackAccepted nbrs)).map Prod.fst) :=
      List.subperm_of_subset hkeys hall
    have hge : nbrs.length ≤ (events.filter (ackAccepted nbrs)).length := by
      have h := hsp2.length_le
      simpa [keysA, List.length_map] using h
    rw [if_pos (by omega)]

theorem sessionStarted_amended_witness :
    (([("A", NeighborEntry.mk "ip" 1 "k" (some "k"))] :
        List (String × NeighborEntry)) ≠ []) ∧
    (keysA ([("A", NeighborEntry.mk "ip" 1 "k" (some "k"))] :
        List (String × NeighborEntry))).Nodup ∧
    (([("A", "ip"), ("B", "ip")] : List (String × String)).map Prod.fst).Nodup ∧
    (runAckHellos [("A", NeighborEntry.mk "ip" 1 "k" (some "k"))] (AckState.mk [] 0)
        [("A", "ip"), ("B", "ip")]).sessionStartedCount ≤ 1 :=
  ⟨by decide, by decide, by decide,
    (sessionStarted_amended [("A", NeighborEntry.mk "ip" 1 "k" (some "k"))]
      [("A", "ip"), ("B", "ip")] (by decide) (by decide) (by decide)).1⟩

end Node
